import Mathlib

/-
Shallow embedding of the request-orchestration and conversation-lifecycle
layer of the Gemini Local Chat Interface (the service module `ChatService.js`,
given as src/unnamed/part_000, and the gateway module `GeminiAPIService.js`,
given as src/unnamed/part_001).

JavaScript strings are modelled as Lean `String`s; the JS string operations
used by the source (`toLowerCase`, `includes`, `slice(-4)`, `split`,
`startsWith`) are implemented explicitly over `String.data` so that every
definition evaluates inside the kernel.  `toLowerCase`/`toUpperCase` are
modelled per code unit with `Char.toLower`/`Char.toUpper` (the source only
ever inspects ASCII patterns such as "quota" and file extensions).

The asynchronous gateway call `GeminiAPIService.chat` is abstracted by an
oracle `gw : Nat → Outcome` giving the outcome of the i-th gateway call of a
run; an `Outcome.abort` models a rejection with `error.name === 'AbortError'`,
and `Outcome.err status message` models any other rejection (for errors
thrown by `apiCall`, `status` is the HTTP status and `message` the parsed
error payload message).  The usage ledger mutation `Session.recordApiUsage`
is modelled by returning the list of record calls the orchestrator makes.
-/

namespace Chat

/-- Prefix test on lists of code units (used to model JS `startsWith` and
`includes`). -/
def isPrefixOfList : List Char → List Char → Bool
  | [], _ => true
  | _ :: _, [] => false
  | a :: as, b :: bs => a == b && isPrefixOfList as bs

/-- Containment of `pat` as a contiguous subsequence of a list of code units. -/
def containsSeq (pat : List Char) : List Char → Bool
  | [] => pat.isEmpty
  | c :: cs => isPrefixOfList pat (c :: cs) || containsSeq pat cs

/-- JS `s.includes(pat)`. -/
def strIncludes (s pat : String) : Bool :=
  containsSeq pat.data s.data

/-- JS `s.startsWith(pre)`. -/
def strStartsWith (s pre : String) : Bool :=
  isPrefixOfList pre.data s.data

/-- JS `s.toLowerCase()` (per code unit). -/
def jsToLower (s : String) : String :=
  ⟨s.data.map Char.toLower⟩

/-- JS `s.toUpperCase()` (per code unit). -/
def jsToUpper (s : String) : String :=
  ⟨s.data.map Char.toUpper⟩

/-- JS `s.slice(-4)`: the last four code units, or all of `s` if it is
shorter. -/
def sliceLastFour (s : String) : String :=
  ⟨s.data.drop (s.data.length - 4)⟩

/-- Splitting a list of code units at every occurrence of the separator
character (JS `split` with a single-character separator). -/
def splitOnCharAux (c : Char) : List Char → List (List Char)
  | [] => [[]]
  | a :: as =>
    let r := splitOnCharAux c as
    if a == c then [] :: r
    else
      match r with
      | [] => [[a]]
      | g :: gs => (a :: g) :: gs

/-- JS `s.split(c)` for a single-character separator `c`. -/
def jsSplit (s : String) (c : Char) : List String :=
  (splitOnCharAux c s.data).map (fun l => ⟨l⟩)

/-- `getApiKeyIdentifier` (ChatService.js line 13):
`key ? \x60key_${key.slice(-4)}\x60 : 'no_key'`. -/
def getApiKeyIdentifier (key : String) : String :=
  if key == "" then "no_key" else "key_" ++ sliceLastFour key

/-- Message roles (`'user' | 'model' | 'system'`). -/
inductive Role where
  | user
  | model
  | system
deriving DecidableEq

/-- The code-summary object built by `createCodeSummary`. -/
structure CodeSummaryData where
  filename : String
  size : Nat
  language : String
  lineCount : Nat
  fullCode : String
deriving DecidableEq

/-- Message parts: the tagged union of part objects appearing in the source
(`{type:'text',...}`, `{type:'image',...}`, `{type:'pdf-attachment',...}`,
`{type:'code-summary',...}`). -/
inductive Part where
  | text (text : String)
  | image (mimeType : String) (data : String)
  | pdfAttachment (name : String) (data : String)
  | codeSummary (summary : CodeSummaryData)
deriving DecidableEq

/-- A conversation message: identity, role and parts (the metadata object is
not inspected by any property verified here). -/
structure Message where
  id : Nat
  role : Role
  parts : List Part
deriving DecidableEq

/-- Default message used for out-of-range `List.getD` reads (never produced
by the embedded code). -/
def dMsg : Message := ⟨0, Role.user, []⟩

/-- `part.type === 'text' || part.type === 'image'` (ChatService.js line 22). -/
def isTextOrImage : Part → Bool
  | Part.text _ => true
  | Part.image _ _ => true
  | _ => false

/-- JS `Array.prototype.findLastIndex`, with `none` for JS `-1`. -/
def findLastIdxP {α : Type} (p : α → Bool) : List α → Option Nat
  | [] => none
  | a :: as =>
    match findLastIdxP p as with
    | some i => some (i + 1)
    | none => if p a then some 0 else none

/-- JS `Array.prototype.findIndex`, with `none` for JS `-1`. -/
def findIdxP {α : Type} (p : α → Bool) : List α → Option Nat
  | [] => none
  | a :: as => if p a then some 0 else (findIdxP p as).map (· + 1)

/-- The body of the arrow function passed to `history.map` in
`filterHistoryForApi` (ChatService.js lines 20-24). -/
def filterStep (lastUserMessageIndex : Option Nat) (index : Nat)
    (message : Message) : Message :=
  if some index == lastUserMessageIndex || message.role != Role.user then message
  else { message with parts := message.parts.filter isTextOrImage }

/-- JS `Array.prototype.map` whose callback receives the element index. -/
def mapWithIndex {α : Type} (f : Nat → α → α) : Nat → List α → List α
  | _, [] => []
  | i, a :: as => f i a :: mapWithIndex f (i + 1) as

/-- `filterHistoryForApi` (ChatService.js lines 18-25). -/
def filterHistoryForApi (history : List Message) : List Message :=
  let lastUserMessageIndex := findLastIdxP (fun m => m.role == Role.user) history
  mapWithIndex (filterStep lastUserMessageIndex) 0 history

/-- Outcome of one gateway call (`GeminiAPIService.chat`): a fulfilled
response, an abort rejection, or any other rejection carrying an optional
HTTP status and a message. -/
inductive Outcome where
  | ok (reply : String) (usage : Nat)
  | abort
  | err (status : Option Nat) (message : String)
deriving DecidableEq

/-- The resolved value of `GeminiAPIService.chat`:
`{ reply, usage, usedApiKey }` (GeminiAPIService.js line 34); `usage` is the
`totalTokenCount` the orchestrator passes to the ledger. -/
structure ChatResponse where
  reply : String
  usage : Nat
  usedApiKey : String
deriving DecidableEq

/-- The errors `callChatApi` can propagate: the empty-candidate error thrown
at ChatService.js line 41 (`AllCredentialsExhausted`), an abort error, a
non-quota gateway failure, and the loop-exhaustion error thrown at line 57
(`AllCredentialsDepleted`). -/
inductive ChatError where
  | exhausted (model : String)
  | aborted
  | requestFailed (status : Option Nat) (message : String)
  | depleted
deriving DecidableEq

/-- The `message` property of the corresponding JS error object.  The
`aborted` case stands for the runtime-supplied `AbortError` message; the
source never reads it (it branches on `error.name` first). -/
def errMessage : ChatError → String
  | ChatError.exhausted model =>
      "일일 호출 제한에 도달했습니다. 이 모델(" ++ model ++ ")은 오늘 더 이상 사용할 수 없습니다."
  | ChatError.aborted => "signal is aborted without reason"
  | ChatError.requestFailed _ message => message
  | ChatError.depleted => "모든 API 키의 할당량이 소진되었거나 유효하지 않습니다."

/-- `error.name === 'AbortError'` (ChatService.js lines 49 and 110). -/
def errIsAbort : ChatError → Bool
  | ChatError.aborted => true
  | _ => false

/-- `error.message.toLowerCase().includes('quota') || error.status === 429`
(ChatService.js line 50). -/
def isQuotaError (status : Option Nat) (message : String) : Bool :=
  strIncludes (jsToLower message) "quota" || status == some 429

/-- An `Outcome` that `callChatApi` classifies as a quota rejection. -/
def isQuotaOutcome : Outcome → Bool
  | Outcome.err status message => isQuotaError status message
  | _ => false

/-- One call to `Session.recordApiUsage`: the ledger entry arguments
`(keyIdentifier, model, totalTokenCount, wasQuotaRejection)`. -/
structure RecordEntry where
  keyId : String
  model : String
  totalTokenCount : Nat
  wasQuotaRejection : Bool
deriving DecidableEq

/-- The zero-usage quota-rejection record made at ChatService.js line 53. -/
def quotaRejectionEntry (apiKey model : String) : RecordEntry :=
  ⟨getApiKeyIdentifier apiKey, model, 0, true⟩

/-- The settings read by `callChatApi`: `settings.apiKey`,
`settings.fallbackApiKeys` and `settings.dailyLimits` (an association of
model name to daily limit; a missing model behaves as limit `0`, matching
`limits[model] || 0`).  An absent primary key is the empty string. -/
structure Settings where
  apiKey : String
  fallbackApiKeys : List String
  dailyLimits : List (String × Nat)
deriving DecidableEq

/-- `[primaryKey, ...fallbackKeys].filter(Boolean)` (ChatService.js line 31). -/
def allConfiguredKeys (settings : Settings) : List String :=
  (settings.apiKey :: settings.fallbackApiKeys).filter (fun k => k != "")

/-- `limits[model] || 0` (ChatService.js line 33). -/
def modelLimitFor (settings : Settings) (model : String) : Nat :=
  (settings.dailyLimits.lookup model).getD 0

/-- The predicate of the `allKeys.filter` at ChatService.js lines 34-39.
`dailyUsage` models `dailyUsage.usageByKey?.[keyId]?.calls?.[model] || 0`
as a total count function. -/
def keyUsable (settings : Settings) (dailyUsage : String → String → Nat)
    (model : String) (key : String) : Bool :=
  if modelLimitFor settings model = 0 then true
  else decide (dailyUsage (getApiKeyIdentifier key) model < modelLimitFor settings model)

/-- The `usableKeys` computation of `callChatApi` (ChatService.js
lines 28-39): the credential selector. -/
def selectUsableKeys (settings : Settings) (dailyUsage : String → String → Nat)
    (model : String) : List String :=
  (allConfiguredKeys settings).filter (keyUsable settings dailyUsage model)

/-- The `for (const apiKey of usableKeys)` fallback loop of `callChatApi`
(ChatService.js lines 43-58), including the `if (!apiResponse)` throw of the
depleted error.  Returns the result, the list of keys for which a gateway
call was made (in call order), and the list of `recordApiUsage` calls made.
`i` is the index of the next gateway call, fed to the outcome oracle. -/
def chatLoop (gw : Nat → Outcome) (model : String) :
    List String → Nat → Except ChatError ChatResponse × List String × List RecordEntry
  | [], _ => (Except.error ChatError.depleted, [], [])
  | apiKey :: rest, i =>
    match gw i with
    | Outcome.ok reply usage => (Except.ok ⟨reply, usage, apiKey⟩, [apiKey], [])
    | Outcome.abort => (Except.error ChatError.aborted, [apiKey], [])
    | Outcome.err status message =>
      if isQuotaError status message then
        let r := chatLoop gw model rest (i + 1)
        (r.1, apiKey :: r.2.1, quotaRejectionEntry apiKey model :: r.2.2)
      else (Except.error (ChatError.requestFailed status message), [apiKey], [])

/-- `callChatApi` (ChatService.js lines 27-59): candidate selection, the
empty-candidate throw, and the fallback loop. -/
def callChatApi (settings : Settings) (dailyUsage : String → String → Nat)
    (model : String) (gw : Nat → Outcome) :
    Except ChatError ChatResponse × List String × List RecordEntry :=
  let usableKeys := selectUsableKeys settings dailyUsage model
  if usableKeys = [] then (Except.error (ChatError.exhausted model), [], [])
  else chatLoop gw model usableKeys 0

/-- An attached file as stored in `appState.attachedFiles`
(`{ name, type, size, data }`). -/
structure FileData where
  name : String
  type : String
  size : Nat
  data : String
deriving DecidableEq

/-- The extension-to-language map of `getLanguageName` (ChatService.js
line 187). -/
def languageMap : List (String × String) :=
  [("js", "JavaScript"), ("py", "Python"), ("html", "HTML"), ("css", "CSS"),
   ("json", "JSON"), ("md", "Markdown"), ("java", "Java"), ("c", "C"),
   ("cpp", "C++"), ("cs", "C#"), ("go", "Go"), ("php", "PHP"), ("rb", "Ruby"),
   ("rs", "Rust"), ("sh", "Shell"), ("ts", "TypeScript"), ("xml", "XML"),
   ("yaml", "YAML"), ("yml", "YAML"), ("txt", "Text"), ("pdf", "PDF")]

/-- `getLanguageName` (ChatService.js lines 185-189). -/
def getLanguageName (filename : String) : String :=
  let extension := jsToLower ((jsSplit filename '.').getLastD "")
  match languageMap.lookup extension with
  | some name => name
  | none => if extension == "" then "File" else jsToUpper extension

/-- `createCodeSummary` (ChatService.js lines 191-195). -/
def createCodeSummary (file : FileData) (content : String) : CodeSummaryData :=
  { filename := file.name, size := file.size, language := getLanguageName file.name,
    lineCount := (jsSplit content '\n').length, fullCode := content }

/-- `prepareMessageParts` (ChatService.js lines 197-213). -/
def prepareMessageParts (messageText : String) (attachedFiles : List FileData) :
    List Part :=
  let fileParts := attachedFiles.map (fun file =>
    if strStartsWith file.type "image/" then Part.image file.type file.data
    else if file.type == "application/pdf" then Part.pdfAttachment file.name file.data
    else Part.codeSummary (createCodeSummary file file.data))
  if messageText == "" then fileParts else fileParts ++ [Part.text messageText]

/-- The slice of `appState` (plus the module-level
`currentRequestController`) relevant to one conversation's lifecycle.
`sessionExists` models both `appState.activeSessionId` being set and
`appState.sessions[sessionId]` existing (a single-conversation model);
`loading` models presence of the `appState.loadingStates[sessionId]` entry
(`thinking` status); `hasController` models
`currentRequestController !== null`; `records` collects the
`Session.recordApiUsage` calls made so far; `runs` counts entries into
`runChatLifecycle` (instrumentation used to state that a guarded operation
starts no lifecycle run). -/
structure AppState where
  sessionExists : Bool
  model : String
  history : List Message
  settings : Settings
  dailyUsage : String → String → Nat
  loading : Bool
  hasController : Bool
  inputText : String
  attachedFiles : List FileData
  nextId : Nat
  records : List RecordEntry
  runs : Nat

/-- Modelled from the spec: `Session.addMessage` (SessionManager.js, which is
not among the given sources) appends a new Message with the given role and
parts to the conversation history ("ordered sequence of Messages
(append-only ...)"); message identity is modelled by a counter. -/
def addMessage (st : AppState) (role : Role) (parts : List Part) :
    AppState × Message :=
  let m : Message := ⟨st.nextId, role, parts⟩
  ({ st with history := st.history ++ [m], nextId := st.nextId + 1 }, m)

/-- `'응답 생성이 취소되었습니다.'` (ChatService.js line 110). -/
def cancelledText : String := "응답 생성이 취소되었습니다."

/-- `executeChat` (ChatService.js lines 61-120): run the orchestrator; on
success record real usage and append a model message with the reply text; on
failure append a system message (cancelled wording for an abort, the error
text otherwise) and delete the loading-state entry.  The system-prompt
resolution (lines 65-91) only shapes the payload of the abstracted gateway
call and is not modelled; UI notifications are external collaborators. -/
def executeChat (st : AppState) (gw : Nat → Outcome) : AppState :=
  if !st.sessionExists then st
  else
    match callChatApi st.settings st.dailyUsage st.model gw with
    | (Except.ok resp, _, recs) =>
      let st1 := { st with records := st.records ++ recs ++
        [⟨getApiKeyIdentifier resp.usedApiKey, st.model, resp.usage, false⟩] }
      (addMessage st1 Role.model [Part.text resp.reply]).1
    | (Except.error e, _, recs) =>
      let errorMessageText :=
        if errIsAbort e then cancelledText else "오류: " ++ errMessage e
      let st1 := { st with records := st.records ++ recs }
      let st2 := (addMessage st1 Role.system [Part.text errorMessageText]).1
      { st2 with loading := false }

/-- `runChatLifecycle` (ChatService.js lines 129-145): allocate a fresh
cancellation controller, enter `thinking`, run `executeChat`, and in the
`finally` clause release the controller.  The outer `catch` for critical
errors is unreachable in this embedding because the embedded `executeChat`
is total. -/
def runChatLifecycle (st : AppState) (gw : Nat → Outcome) : AppState :=
  let st1 := { st with hasController := true, loading := true, runs := st.runs + 1 }
  let st2 := executeChat st1 gw
  { st2 with hasController := false }

/-- `sendMessage` (ChatService.js lines 147-163). -/
def sendMessage (st : AppState) (gw : Nat → Outcome) : AppState :=
  if !st.sessionExists then st
  else if st.loading then st
  else if st.inputText == "" && st.attachedFiles.isEmpty then st
  else
    let userMessageParts := prepareMessageParts st.inputText st.attachedFiles
    let st1 := (addMessage st Role.user userMessageParts).1
    let st2 := { st1 with inputText := "", attachedFiles := [] }
    runChatLifecycle st2 gw

/-- The history-truncation part of `regenerate` (ChatService.js
lines 169-173): `some` of the truncated history when all preconditions hold,
`none` (history untouched, lifecycle not entered) otherwise. -/
def regenTruncation (hist : List Message) (messageId : Nat) :
    Option (List Message) :=
  match findIdxP (fun m => m.id == messageId) hist with
  | none => none
  | some messageIndex =>
    if messageIndex < 1 then none
    else if (hist.getD messageIndex dMsg).role ≠ Role.model then none
    else
      match findLastIdxP (fun m => m.role == Role.user) (hist.take messageIndex) with
      | none => none
      | some lastUserMessageIndex => some (hist.take (lastUserMessageIndex + 1))

/-- The conversation history after `regenerate(sessionId, messageId)` acts on
it (identical to the input when a precondition fails). -/
def regenerateHistory (hist : List Message) (messageId : Nat) : List Message :=
  (regenTruncation hist messageId).getD hist

/-- `regenerate` (ChatService.js lines 165-176). -/
def regenerate (st : AppState) (messageId : Nat) (gw : Nat → Outcome) : AppState :=
  if !st.sessionExists then st
  else if st.loading then st
  else
    match regenTruncation st.history messageId with
    | none => st
    | some hist => runChatLifecycle { st with history := hist } gw

/-- `resubmit` (ChatService.js lines 178-182). -/
def resubmit (st : AppState) (gw : Nat → Outcome) : AppState :=
  if st.loading then st else runChatLifecycle st gw

/-- A ledger with no recorded calls. -/
def zeroUsage : String → String → Nat := fun _ _ => 0

/-- Settings with a single non-empty credential and no daily limits. -/
def settingsOne : Settings := ⟨"aaaa1111", [], []⟩

/-- Settings with a primary and one fallback credential, no daily limits. -/
def settingsTwo : Settings := ⟨"aaaa1111", ["bbbb2222"], []⟩

/-- Settings with no usable credential at all. -/
def settingsEmpty : Settings := ⟨"", [], []⟩

/-- Settings with an empty fallback entry and a daily limit of 2 on model
`"M"`. -/
def settingsSel : Settings := ⟨"aaaa1111", ["", "bbbb2222"], [("M", 2)]⟩

/-- A ledger on which the primary key of `settingsSel` has reached the
limit of model `"M"`. -/
def usageSel : String → String → Nat :=
  fun keyId m => if keyId == "key_1111" && m == "M" then 2 else 0

/-- Gateway oracle: every call rejects with an abort. -/
def gwAbort : Nat → Outcome := fun _ => Outcome.abort

/-- Gateway oracle: every call rejects with HTTP 429. -/
def gwQuota : Nat → Outcome :=
  fun _ => Outcome.err (some 429) "Resource has been exhausted"

/-- A non-text, non-image part used to exhibit the behaviour of
`filterHistoryForApi` on non-user messages. -/
def pdfPartC5 : Part := Part.pdfAttachment "doc.pdf" "JVBERi0"

/-- A history whose first message is a model message holding a pdf part and
whose last message is the most recent user message. -/
def historyC5 : List Message :=
  [⟨1, Role.model, [pdfPartC5]⟩, ⟨2, Role.user, [Part.text "hi"]⟩]

/-- A history with one non-latest user message carrying a pdf part. -/
def historyShape : List Message :=
  [⟨1, Role.user, [Part.text "q1", pdfPartC5]⟩,
   ⟨2, Role.model, [Part.text "a1"]⟩,
   ⟨3, Role.user, [Part.text "q2"]⟩]

/-- A two-message history: one user turn and the model answer. -/
def historyRegen : List Message :=
  [⟨1, Role.user, [Part.text "hi"]⟩, ⟨2, Role.model, [Part.text "answer"]⟩]

/-- An idle conversation state with no configured credentials. -/
def stIdle : AppState :=
  { sessionExists := true, model := "gemini-pro",
    history := [⟨1, Role.user, [Part.text "hi"]⟩],
    settings := settingsEmpty, dailyUsage := zeroUsage, loading := false,
    hasController := false, inputText := "", attachedFiles := [], nextId := 2,
    records := [], runs := 0 }

/-- A conversation state currently in thinking status. -/
def stThinking : AppState :=
  { sessionExists := true, model := "gemini-pro",
    history := [⟨1, Role.user, [Part.text "hi"]⟩],
    settings := settingsTwo, dailyUsage := zeroUsage, loading := true,
    hasController := true, inputText := "again", attachedFiles := [],
    nextId := 2, records := [], runs := 1 }

/-- First-index characterisation used to state the preconditions of
`regenerate`: `mi` is the index `findIndex` returns for `messageId`. -/
def IsFirstIdxWithId (hist : List Message) (messageId : Nat) (mi : Nat) : Prop :=
  mi < hist.length ∧ (hist.getD mi dMsg).id = messageId ∧
    ∀ j, j < mi → (hist.getD j dMsg).id ≠ messageId

/-- `lu` is the nearest index before `mi` holding a user message. -/
def IsNearestUserBefore (hist : List Message) (mi lu : Nat) : Prop :=
  lu < mi ∧ (hist.getD lu dMsg).role = Role.user ∧
    ∀ j, j < mi → lu < j → (hist.getD j dMsg).role ≠ Role.user

instance (hist : List Message) (messageId mi : Nat) :
    Decidable (IsFirstIdxWithId hist messageId mi) := by
  unfold IsFirstIdxWithId
  infer_instance

instance (hist : List Message) (mi lu : Nat) :
    Decidable (IsNearestUserBefore hist mi lu) := by
  unfold IsNearestUserBefore
  infer_instance

theorem list_ext_getD {α : Type} (d : α) :
    ∀ (l1 l2 : List α), l1.length = l2.length →
      (∀ i, i < l1.length → l1.getD i d = l2.getD i d) → l1 = l2 := by
  intro l1
  induction l1 with
  | nil =>
    intro l2 hlen _
    cases l2 with
    | nil => rfl
    | cons b bs => simp at hlen
  | cons a as ih =>
    intro l2 hlen hget
    cases l2 with
    | nil => simp at hlen
    | cons b bs =>
      have h0 := hget 0 (by simp)
      simp only [List.getD_cons_zero] at h0
      have htail : as = bs := by
        apply ih
        · simpa using hlen
        · intro i hi
          have := hget (i + 1) (by simpa using Nat.succ_lt_succ hi)
          simpa only [List.getD_cons_succ] using this
      rw [h0, htail]

theorem getD_take {α : Type} (d : α) (l : List α) (n i : Nat) (h : i < n) :
    (l.take n).getD i d = l.getD i d := by
  rw [List.getD_eq_getD_get?, List.getD_eq_getD_get?, List.get?_take h]

theorem getLast?_take_succ {α : Type} (d : α) :
    ∀ (l : List α) (i : Nat), i < l.length →
      (l.take (i + 1)).getLast? = some (l.getD i d) := by
  intro l
  induction l with
  | nil => intro i h; simp at h
  | cons a as ih =>
    intro i h
    cases i with
    | zero => simp
    | succ i' =>
      have h' : i' < as.length := by simpa using h
      cases as with
      | nil => simp at h'
      | cons b bs =>
        rw [List.take_succ_cons, List.take_succ_cons, List.getLast?_cons_cons,
          List.getD_cons_succ]
        have := ih i' h'
        rwa [List.take_succ_cons] at this

theorem mapWithIndex_length {α : Type} (f : Nat → α → α) :
    ∀ (i : Nat) (l : List α), (mapWithIndex f i l).length = l.length := by
  intro i l
  induction l generalizing i with
  | nil => rfl
  | cons a as ih => simp [mapWithIndex, ih]

theorem mapWithIndex_getD {α : Type} (f : Nat → α → α) (d : α) :
    ∀ (l : List α) (i k : Nat), k < l.length →
      (mapWithIndex f i l).getD k d = f (i + k) (l.getD k d) := by
  intro l
  induction l with
  | nil => intro i k h; simp at h
  | cons a as ih =>
    intro i k h
    cases k with
    | zero => simp [mapWithIndex]
    | succ k' =>
      have h' : k' < as.length := by simpa using h
      simp only [mapWithIndex, List.getD_cons_succ]
      rw [ih (i + 1) k' h']
      congr 1
      omega

theorem findLastIdxP_none {α : Type} (p : α → Bool) (d : α) :
    ∀ (l : List α), findLastIdxP p l = none →
      ∀ j, j < l.length → p (l.getD j d) = false := by
  intro l
  induction l with
  | nil => intro _ j hj; simp at hj
  | cons a as ih =>
    intro h j hj
    simp only [findLastIdxP] at h
    cases hfa : findLastIdxP p as with
    | some i => rw [hfa] at h; simp at h
    | none =>
      rw [hfa] at h
      have hpa : p a = false := by
        by_cases hp : p a = true
        · simp [hp] at h
        · simpa using hp
      cases j with
      | zero => simpa using hpa
      | succ j' =>
        have hj' : j' < as.length := by simpa using hj
        simpa only [List.getD_cons_succ] using ih hfa j' hj'

theorem findLastIdxP_some {α : Type} (p : α → Bool) (d : α) :
    ∀ (l : List α) (k : Nat), findLastIdxP p l = some k →
      k < l.length ∧ p (l.getD k d) = true ∧
        ∀ j, k < j → j < l.length → p (l.getD j d) = false := by
  intro l
  induction l with
  | nil => intro k h; simp [findLastIdxP] at h
  | cons a as ih =>
    intro k h
    simp only [findLastIdxP] at h
    cases hfa : findLastIdxP p as with
    | some i =>
      rw [hfa] at h
      have hk : k = i + 1 := by
        injection h with h'
        omega
      subst hk
      obtain ⟨hlen, hp, hmax⟩ := ih i hfa
      refine ⟨by simpa using Nat.succ_lt_succ hlen,
        by simpa only [List.getD_cons_succ] using hp, ?_⟩
      intro j hij hjlen
      cases j with
      | zero => omega
      | succ j' =>
        have hj' : j' < as.length := by simpa using hjlen
        simpa only [List.getD_cons_succ] using hmax j' (by omega) hj'
    | none =>
      rw [hfa] at h
      by_cases hp : p a = true
      · rw [if_pos hp] at h
        have hk : k = 0 := by
          injection h with h'
          omega
        subst hk
        refine ⟨by simp, by simpa using hp, ?_⟩
        intro j h0j hjlen
        cases j with
        | zero => omega
        | succ j' =>
          have hj' : j' < as.length := by simpa using hjlen
          simpa only [List.getD_cons_succ] using findLastIdxP_none p d as hfa j' hj'
      · rw [if_neg hp] at h
        cases h

theorem findLastIdxP_ge {α : Type} (p : α → Bool) (d : α) :
    ∀ (l : List α) (j : Nat), j < l.length → p (l.getD j d) = true →
      ∃ k, findLastIdxP p l = some k ∧ j ≤ k := by
  intro l
  induction l with
  | nil => intro j hj _; simp at hj
  | cons a as ih =>
    intro j hj hp
    cases hfa : findLastIdxP p as with
    | some i =>
      refine ⟨i + 1, by simp only [findLastIdxP, hfa], ?_⟩
      cases j with
      | zero => omega
      | succ j' =>
        have h' : j' < as.length := by simpa using hj
        obtain ⟨k', hk', hle⟩ := ih j' h'
          (by simpa only [List.getD_cons_succ] using hp)
        rw [hfa] at hk'
        injection hk' with h''
        omega
    | none =>
      cases j with
      | zero =>
        have hpa : p a = true := by simpa using hp
        exact ⟨0, by simp only [findLastIdxP, hfa, hpa, if_true], Nat.le_refl 0⟩
      | succ j' =>
        have h' : j' < as.length := by simpa using hj
        obtain ⟨k', hk', _⟩ := ih j' h'
          (by simpa only [List.getD_cons_succ] using hp)
        rw [hfa] at hk'
        cases hk'

theorem findIdxP_some {α : Type} (p : α → Bool) (d : α) :
    ∀ (l : List α) (k : Nat), findIdxP p l = some k →
      k < l.length ∧ p (l.getD k d) = true ∧
        ∀ j, j < k → p (l.getD j d) = false := by
  intro l
  induction l with
  | nil => intro k h; simp [findIdxP] at h
  | cons a as ih =>
    intro k h
    by_cases hp : p a = true
    · simp only [findIdxP, hp, if_true] at h
      have hk : k = 0 := by
        injection h with h'
        omega
      subst hk
      refine ⟨by simp, by simpa using hp, ?_⟩
      intro j hj
      omega
    · simp only [findIdxP, hp, if_false] at h
      cases hfa : findIdxP p as with
      | none => rw [hfa] at h; cases h
      | some i =>
        rw [hfa] at h
        simp only [Option.map_some'] at h
        have hk : k = i + 1 := by
          injection h with h'
          omega
        subst hk
        obtain ⟨hlen, hpi, hfirst⟩ := ih i hfa
        refine ⟨by simpa using Nat.succ_lt_succ hlen,
          by simpa only [List.getD_cons_succ] using hpi, ?_⟩
        intro j hj
        cases j with
        | zero => simpa using hp
        | succ j' =>
          simpa only [List.getD_cons_succ] using hfirst j' (by omega)

theorem findIdxP_le {α : Type} (p : α → Bool) (d : α) :
    ∀ (l : List α) (j : Nat), j < l.length → p (l.getD j d) = true →
      ∃ k, findIdxP p l = some k ∧ k ≤ j := by
  intro l
  induction l with
  | nil => intro j hj _; simp at hj
  | cons a as ih =>
    intro j hj hp
    by_cases hpa : p a = true
    · exact ⟨0, by simp [findIdxP, hpa], Nat.zero_le j⟩
    · cases j with
      | zero =>
        have : p a = true := by simpa using hp
        exact absurd this hpa
      | succ j' =>
        have h' : j' < as.length := by simpa using hj
        obtain ⟨k', hk', hle⟩ := ih j' h'
          (by simpa only [List.getD_cons_succ] using hp)
        refine ⟨k' + 1, ?_, by omega⟩
        simp [findIdxP, hpa, hk']

theorem filterStep_role (lu : Option Nat) (i : Nat) (m : Message) :
    (filterStep lu i m).role = m.role := by
  unfold filterStep
  split
  · rfl
  · rfl

theorem findLastIdxP_user_mapWithIndex (lu : Option Nat) :
    ∀ (l : List Message) (i : Nat),
      findLastIdxP (fun m => m.role == Role.user) (mapWithIndex (filterStep lu) i l) =
        findLastIdxP (fun m => m.role == Role.user) l := by
  intro l
  induction l with
  | nil => intro i; rfl
  | cons a as ih =>
    intro i
    simp only [mapWithIndex, findLastIdxP, ih (i + 1), filterStep_role]

theorem filterStep_idem (lu : Option Nat) (i : Nat) (m : Message) :
    filterStep lu i (filterStep lu i m) = filterStep lu i m := by
  by_cases h : (some i == lu || m.role != Role.user) = true
  · have hm : filterStep lu i m = m := by rw [filterStep, if_pos h]
    rw [hm, hm]
  · have hm : filterStep lu i m = { m with parts := m.parts.filter isTextOrImage } := by
      rw [filterStep, if_neg h]
    rw [hm, filterStep, if_neg (by simpa using h)]
    simp [List.filter_filter]

/-- C9: for every conversation history, applying the outgoing-history shaping
function `filterHistoryForApi` twice yields the same result as applying it
once — shaping is idempotent. -/
theorem filterHistoryForApi_idempotent (history : List Message) :
    filterHistoryForApi (filterHistoryForApi history) = filterHistoryForApi history := by
  simp only [filterHistoryForApi, findLastIdxP_user_mapWithIndex]
  apply list_ext_getD dMsg
  · rw [mapWithIndex_length, mapWithIndex_length]
  · intro i hi
    have hlen1 : (mapWithIndex
        (filterStep (findLastIdxP (fun m => m.role == Role.user) history)) 0
          history).length = history.length := mapWithIndex_length _ _ _
    have hi2 : i < history.length := by
      rw [mapWithIndex_length, hlen1] at hi
      exact hi
    have hi1 : i < (mapWithIndex
        (filterStep (findLastIdxP (fun m => m.role == Role.user) history)) 0
          history).length := by
      rw [hlen1]
      exact hi2
    rw [mapWithIndex_getD _ dMsg _ 0 i hi1, mapWithIndex_getD _ dMsg _ 0 i hi2]
    simp only [Nat.zero_add]
    exact filterStep_idem _ i _

/-- C5 counterexample: on `historyC5`, whose first message is a model message
carrying a pdf-attachment part and whose most recent user message is the
second message, the shaping function returns the model message with its pdf
part intact — refuting the claim that every message except the most recent
user message has its non-text/non-image parts removed. -/
theorem filterHistoryForApi_counterexample :
    ((filterHistoryForApi historyC5).getD 0 dMsg).parts = [pdfPartC5] ∧
    isTextOrImage pdfPartC5 = false ∧
    findLastIdxP (fun m => m.role == Role.user) historyC5 = some 1 := by
  decide

/-- C5 (amended): the shaping function preserves the history length; every
user message that is not the most recent user message has exactly its
non-text/non-image parts removed; every other message — the most recent user
message and every non-user message — is returned unmodified. -/
theorem filterHistoryForApi_spec (history : List Message) :
    (filterHistoryForApi history).length = history.length ∧
    ∀ i, i < history.length →
      (((history.getD i dMsg).role = Role.user ∧
          ∃ j, i < j ∧ j < history.length ∧ (history.getD j dMsg).role = Role.user) →
        (filterHistoryForApi history).getD i dMsg =
          { history.getD i dMsg with
              parts := (history.getD i dMsg).parts.filter isTextOrImage }) ∧
      (((history.getD i dMsg).role ≠ Role.user ∨
          ∀ j, i < j → j < history.length → (history.getD j dMsg).role ≠ Role.user) →
        (filterHistoryForApi history).getD i dMsg = history.getD i dMsg) := by
  constructor
  · simp only [filterHistoryForApi]
    exact mapWithIndex_length _ _ _
  · intro i hi
    constructor
    · rintro ⟨hrole, j, hij, hjlen, hjrole⟩
      obtain ⟨k, hk, hjk⟩ := findLastIdxP_ge (fun m => m.role == Role.user) dMsg
        history j hjlen (by simp only [beq_iff_eq]; exact hjrole)
      simp only [filterHistoryForApi, hk]
      rw [mapWithIndex_getD _ dMsg _ 0 i hi]
      simp only [Nat.zero_add]
      have h1 : (some i == some k) = false := by
        have hik : i ≠ k := by omega
        simp only [beq_eq_false_iff_ne, ne_eq, Option.some.injEq]
        exact hik
      have h2 : ((history.getD i dMsg).role != Role.user) = false := by
        simp only [bne, hrole, beq_self_eq_true, Bool.not_true]
      rw [filterStep, h1, h2, Bool.or_self, if_neg (by decide)]
    · intro hcase
      cases hcase with
      | inl hne =>
        simp only [filterHistoryForApi]
        rw [mapWithIndex_getD _ dMsg _ 0 i hi]
        simp only [Nat.zero_add]
        have h2 : ((history.getD i dMsg).role != Role.user) = true := by
          simp only [bne_iff_ne, ne_eq]
          exact hne
        rw [filterStep, h2, Bool.or_true, if_pos rfl]
      | inr hnone =>
        by_cases hrole : (history.getD i dMsg).role = Role.user
        · obtain ⟨k, hk, hik⟩ := findLastIdxP_ge (fun m => m.role == Role.user) dMsg
            history i hi (by simp only [beq_iff_eq]; exact hrole)

          have hki : k = i := by
            rcases Nat.lt_or_ge i k with hlt | hge
            · obtain ⟨hklen, hpk, _⟩ := findLastIdxP_some
                (fun m => m.role == Role.user) dMsg history k hk
              have hku : (history.getD k dMsg).role = Role.user := by
                simp only [beq_iff_eq] at hpk
                exact hpk
              exact absurd hku (hnone k hlt hklen)
            · omega
          rw [hki] at hk
          simp only [filterHistoryForApi, hk]
          rw [mapWithIndex_getD _ dMsg _ 0 i hi]
          simp only [Nat.zero_add]
          rw [filterStep, show (some i == some i) = true from by simp, Bool.true_or,
            if_pos rfl]
        · simp only [filterHistoryForApi]
          rw [mapWithIndex_getD _ dMsg _ 0 i hi]
          simp only [Nat.zero_add]
          have h2 : ((history.getD i dMsg).role != Role.user) = true := by
            simp only [bne_iff_ne, ne_eq]
            exact hrole
          rw [filterStep, h2, Bool.or_true, if_pos rfl]

theorem filterHistoryForApi_spec_witness :
    (filterHistoryForApi historyShape).getD 0 dMsg =
      { historyShape.getD 0 dMsg with
          parts := (historyShape.getD 0 dMsg).parts.filter isTextOrImage } ∧
    (filterHistoryForApi historyShape).getD 2 dMsg = historyShape.getD 2 dMsg :=
  ⟨((filterHistoryForApi_spec historyShape).2 0 (by decide)).1
      ⟨by decide, 2, by decide, by decide, by decide⟩,
    ((filterHistoryForApi_spec historyShape).2 2 (by decide)).2
      (Or.inr (fun j h1 h2 =>
        absurd h2 (by rw [show historyShape.length = 3 from rfl]; omega)))⟩

/-- C6: whenever the target message exists (at first index `mi`), has the
model role, is not the first message, and some user message precedes it (the
nearest at index `lu`), the history after `regenerate` is exactly the prefix
ending at that user message: it equals `take (lu + 1)`, has length `lu + 1`,
its last message is that user message, and it is a prefix of the original
history (so no new user message is appended before the lifecycle re-enters);
when any precondition fails, the history is unchanged. -/
theorem regenerateHistory_spec (hist : List Message) (messageId : Nat) :
    (∀ mi lu, IsFirstIdxWithId hist messageId mi → 1 ≤ mi →
      (hist.getD mi dMsg).role = Role.model → IsNearestUserBefore hist mi lu →
      (regenerateHistory hist messageId = hist.take (lu + 1) ∧
        (regenerateHistory hist messageId).length = lu + 1 ∧
        (regenerateHistory hist messageId).getLast? = some (hist.getD lu dMsg) ∧
        regenerateHistory hist messageId <+: hist)) ∧
    ((¬ ∃ mi, IsFirstIdxWithId hist messageId mi ∧ 1 ≤ mi ∧
        (hist.getD mi dMsg).role = Role.model ∧ ∃ lu, IsNearestUserBefore hist mi lu) →
      regenerateHistory hist messageId = hist) := by
  constructor
  · rintro mi lu ⟨hmilen, hid, hfirst⟩ hmi1 hrole ⟨hlumi, hlurole, hnearest⟩
    have hfind : findIdxP (fun m => m.id == messageId) hist = some mi := by
      obtain ⟨k, hk, hkle⟩ := findIdxP_le (fun m => m.id == messageId) dMsg hist mi
        hmilen (by simp only [beq_iff_eq]; exact hid)
      obtain ⟨hklen, hpk, _⟩ := findIdxP_some (fun m => m.id == messageId) dMsg hist k hk
      rcases Nat.lt_or_ge k mi with hlt | hge
      · simp only [beq_iff_eq] at hpk
        exact absurd hpk (hfirst k hlt)
      · have hkmi : k = mi := by omega
        rw [hkmi] at hk
        exact hk
    have hlulen : lu < (hist.take mi).length := by
      rw [List.length_take]
      omega
    have hfindlast : findLastIdxP (fun m => m.role == Role.user) (hist.take mi) =
        some lu := by
      obtain ⟨k, hk, hlek⟩ := findLastIdxP_ge (fun m => m.role == Role.user) dMsg
        (hist.take mi) lu hlulen
        (by rw [getD_take dMsg hist mi lu hlumi]; simp only [beq_iff_eq]; exact hlurole)
      obtain ⟨hklen, hpk, _⟩ := findLastIdxP_some (fun m => m.role == Role.user) dMsg
        (hist.take mi) k hk
      have hkmi : k < mi := by
        rw [List.length_take] at hklen
        omega
      rcases Nat.lt_or_ge lu k with hlt | hge
      · rw [getD_take dMsg hist mi k hkmi] at hpk
        simp only [beq_iff_eq] at hpk
        exact absurd hpk (hnearest k hkmi hlt)
      · have hluk : lu = k := by omega
        rw [hluk]
        exact hk
    have hres : regenTruncation hist messageId = some (hist.take (lu + 1)) := by
      simp only [regenTruncation, hfind, hfindlast]
      rw [if_neg (by omega : ¬ mi < 1), if_neg (not_not_intro hrole)]
    refine ⟨?_, ?_, ?_, ?_⟩
    · rw [regenerateHistory, hres]
      rfl
    · rw [regenerateHistory, hres]
      simp only [Option.getD_some, List.length_take]
      omega
    · rw [regenerateHistory, hres]
      simp only [Option.getD_some]
      exact getLast?_take_succ dMsg hist lu (by omega)
    · rw [regenerateHistory, hres]
      exact ⟨hist.drop (lu + 1), List.take_append_drop _ _⟩
  · intro hno
    rw [regenerateHistory]
    cases hfind : findIdxP (fun m => m.id == messageId) hist with
    | none =>
      simp only [regenTruncation, hfind, Option.getD_none]
    | some mi =>
      obtain ⟨hmilen, hpmi, hfirstb⟩ := findIdxP_some (fun m => m.id == messageId)
        dMsg hist mi hfind
      have hfirst : IsFirstIdxWithId hist messageId mi := by
        refine ⟨hmilen, by simpa only [beq_iff_eq] using hpmi, ?_⟩
        intro j hj
        have := hfirstb j hj
        simp only [beq_eq_false_iff_ne, ne_eq] at this
        exact this
      by_cases hmi1 : mi < 1
      · simp only [regenTruncation, hfind, if_pos hmi1, Option.getD_none]
      · by_cases hrole : (hist.getD mi dMsg).role = Role.model
        · cases hfindlast : findLastIdxP (fun m => m.role == Role.user)
              (hist.take mi) with
          | none =>
            simp only [regenTruncation, hfind, hfindlast, if_neg hmi1,
              if_neg (not_not_intro hrole), Option.getD_none]
          | some lu =>
            exfalso
            obtain ⟨hlulen, hpl, hmax⟩ := findLastIdxP_some
              (fun m => m.role == Role.user) dMsg (hist.take mi) lu hfindlast
            have hlumi : lu < mi := by
              rw [List.length_take] at hlulen
              omega
            have hlurole : (hist.getD lu dMsg).role = Role.user := by
              rw [getD_take dMsg hist mi lu hlumi] at hpl
              simpa only [beq_iff_eq] using hpl
            have hnearest : ∀ j, j < mi → lu < j → (hist.getD j dMsg).role ≠ Role.user := by
              intro j hjmi hlj
              have hjlen : j < (hist.take mi).length := by
                rw [List.length_take]
                omega
              have := hmax j hlj hjlen
              rw [getD_take dMsg hist mi j hjmi] at this
              simp only [beq_eq_false_iff_ne, ne_eq] at this
              exact this
            exact hno ⟨mi, hfirst, by omega, hrole, lu, hlumi, hlurole, hnearest⟩
        · simp only [regenTruncation, hfind, if_neg hmi1, if_pos hrole, Option.getD_none]

theorem regenerateHistory_spec_witness :
    regenerateHistory historyRegen 2 = historyRegen.take 1 ∧
    (regenerateHistory historyRegen 2).length = 1 ∧
    (regenerateHistory historyRegen 2).getLast? = some (historyRegen.getD 0 dMsg) ∧
    regenerateHistory historyRegen 2 <+: historyRegen :=
  (regenerateHistory_spec historyRegen 2).1 1 0 (by decide) (by decide) (by decide)
    (by decide)

theorem chatLoop_all_quota (gw : Nat → Outcome) (model : String) :
    ∀ (keys : List String) (i : Nat),
      (∀ j, j < keys.length → isQuotaOutcome (gw (i + j)) = true) →
      chatLoop gw model keys i =
        (Except.error ChatError.depleted, keys,
          keys.map (fun k => quotaRejectionEntry k model)) := by
  intro keys
  induction keys with
  | nil => intro i _; rfl
  | cons a as ih =>
    intro i h
    have h0 : isQuotaOutcome (gw i) = true := by
      have := h 0 (by simp)
      simpa using this
    cases hgw : gw i with
    | ok reply usage => rw [hgw] at h0; simp [isQuotaOutcome] at h0
    | abort => rw [hgw] at h0; simp [isQuotaOutcome] at h0
    | err status message =>
      rw [hgw] at h0
      have hq : isQuotaError status message = true := by
        simpa [isQuotaOutcome] using h0
      have htail := ih (i + 1) (fun j hj => by
        have hstep := h (j + 1) (by simpa using Nat.succ_lt_succ hj)
        have e : i + (j + 1) = (i + 1) + j := by omega
        rwa [e] at hstep)
      simp only [chatLoop, hgw, hq, if_true, htail, List.map_cons]

/-- C1: for every configuration whose computed candidate list is non-empty,
if every gateway call rejects with a quota outcome, then `callChatApi` calls
the gateway exactly once per candidate in input order (the call trace equals
the candidate list), makes one zero-usage quota-rejection ledger record per
(credential, model) pair, and fails with the `AllCredentialsDepleted` error,
which is distinct from the empty-candidate `AllCredentialsExhausted` error. -/
theorem callChatApi_all_quota (settings : Settings)
    (dailyUsage : String → String → Nat) (model : String) (gw : Nat → Outcome)
    (hne : selectUsableKeys settings dailyUsage model ≠ [])
    (hq : ∀ j, j < (selectUsableKeys settings dailyUsage model).length →
      isQuotaOutcome (gw j) = true) :
    callChatApi settings dailyUsage model gw =
      (Except.error ChatError.depleted,
        selectUsableKeys settings dailyUsage model,
        (selectUsableKeys settings dailyUsage model).map
          (fun k => quotaRejectionEntry k model)) ∧
    (∀ m, ChatError.depleted ≠ ChatError.exhausted m) := by
  constructor
  · simp only [callChatApi, if_neg hne]
    exact chatLoop_all_quota gw model (selectUsableKeys settings dailyUsage model) 0
      (fun j hj => by
        have := hq j hj
        rwa [show j = 0 + j from by omega] at this)
  · intro m h
    cases h

theorem callChatApi_all_quota_witness :
    callChatApi settingsTwo zeroUsage "gemini-pro" gwQuota =
      (Except.error ChatError.depleted,
        selectUsableKeys settingsTwo zeroUsage "gemini-pro",
        (selectUsableKeys settingsTwo zeroUsage "gemini-pro").map
          (fun k => quotaRejectionEntry k "gemini-pro")) :=
  (callChatApi_all_quota settingsTwo zeroUsage "gemini-pro" gwQuota (by decide)
    (fun j _ => rfl)).1

theorem chatLoop_quota_before_later (gw : Nat → Outcome) (model : String) :
    ∀ (keys : List String) (i j : Nat),
      j + 1 < (chatLoop gw model keys i).2.1.length →
      isQuotaOutcome (gw (i + j)) = true := by
  intro keys
  induction keys with
  | nil => intro i j hj; simp [chatLoop] at hj
  | cons a as ih =>
    intro i j hj
    cases hgw : gw i with
    | ok reply usage => simp [chatLoop, hgw] at hj
    | abort => simp [chatLoop, hgw] at hj
    | err status message =>
      by_cases hq : isQuotaError status message = true
      · cases j with
        | zero =>
          rw [Nat.add_zero, hgw]
          simpa [isQuotaOutcome] using hq
        | succ j' =>
          have hj' : j' + 1 < (chatLoop gw model as (i + 1)).2.1.length := by
            simp only [chatLoop, hgw, hq, if_true, List.length_cons] at hj
            omega
          have := ih (i + 1) j' hj'
          have e : (i + 1) + j' = i + (j' + 1) := by omega
          rwa [e] at this
      · simp [chatLoop, hgw, hq] at hj

theorem chatLoop_abort_fail_fast (gw : Nat → Outcome) (model : String) :
    ∀ (keys : List String) (i j : Nat),
      j < (chatLoop gw model keys i).2.1.length → gw (i + j) = Outcome.abort →
      (chatLoop gw model keys i).1 = Except.error ChatError.aborted ∧
        (chatLoop gw model keys i).2.2.length = j := by
  intro keys
  induction keys with
  | nil => intro i j hj _; simp [chatLoop] at hj
  | cons a as ih =>
    intro i j hj hab
    cases hgw : gw i with
    | ok reply usage =>
      have hj0 : j = 0 := by
        simp only [chatLoop, hgw, List.length_cons, List.length_nil] at hj
        omega
      rw [hj0, Nat.add_zero, hgw] at hab
      cases hab
    | abort =>
      have hj0 : j = 0 := by
        simp only [chatLoop, hgw, List.length_cons, List.length_nil] at hj
        omega
      rw [hj0]
      simp [chatLoop, hgw]
    | err status message =>
      by_cases hq : isQuotaError status message = true
      · cases j with
        | zero =>
          rw [Nat.add_zero, hgw] at hab
          cases hab
        | succ j' =>
          have hj' : j' < (chatLoop gw model as (i + 1)).2.1.length := by
            simp only [chatLoop, hgw, hq, if_true, List.length_cons] at hj
            omega
          have hab' : gw ((i + 1) + j') = Outcome.abort := by
            have e : (i + 1) + j' = i + (j' + 1) := by omega
            rwa [e]
          obtain ⟨hres, hlen⟩ := ih (i + 1) j' hj' hab'
          constructor
          · simp only [chatLoop, hgw, hq, if_true]
            exact hres
          · simp only [chatLoop, hgw, hq, if_true, List.length_cons, hlen]
      · have hj0 : j = 0 := by
          simp [chatLoop, hgw, hq] at hj
          omega
        rw [hj0, Nat.add_zero, hgw] at hab
        cases hab

theorem chatLoop_fatal_fail_fast (gw : Nat → Outcome) (model : String) :
    ∀ (keys : List String) (i j : Nat) (status : Option Nat) (message : String),
      j < (chatLoop gw model keys i).2.1.length →
      gw (i + j) = Outcome.err status message → isQuotaError status message = false →
      (chatLoop gw model keys i).1 =
        Except.error (ChatError.requestFailed status message) := by
  intro keys
  induction keys with
  | nil => intro i j status message hj _ _; simp [chatLoop] at hj
  | cons a as ih =>
    intro i j status message hj herr hnq
    cases hgw : gw i with
    | ok reply usage =>
      have hj0 : j = 0 := by
        simp only [chatLoop, hgw, List.length_cons, List.length_nil] at hj
        omega
      rw [hj0, Nat.add_zero, hgw] at herr
      cases herr
    | abort =>
      have hj0 : j = 0 := by
        simp only [chatLoop, hgw, List.length_cons, List.length_nil] at hj
        omega
      rw [hj0, Nat.add_zero, hgw] at herr
      cases herr
    | err status0 message0 =>
      by_cases hq : isQuotaError status0 message0 = true
      · cases j with
        | zero =>
          rw [Nat.add_zero, hgw] at herr
          injection herr with h1 h2
          rw [h1, h2] at hq
          rw [hq] at hnq
          cases hnq
        | succ j' =>
          have hj' : j' < (chatLoop gw model as (i + 1)).2.1.length := by
            simp only [chatLoop, hgw, hq, if_true, List.length_cons] at hj
            omega
          have herr' : gw ((i + 1) + j') = Outcome.err status message := by
            have e : (i + 1) + j' = i + (j' + 1) := by omega
            rwa [e]
          have := ih (i + 1) j' status message hj' herr' hnq
          simp only [chatLoop, hgw, hq, if_true]
          exact this
      · have hj0 : j = 0 := by
          simp [chatLoop, hgw, hq] at hj
          omega
        rw [hj0, Nat.add_zero, hgw] at herr
        injection herr with h1 h2
        rw [← h1, ← h2]
        simp [chatLoop, hgw, hq]

/-- C2: for every configuration and every sequence of gateway outcomes,
`callChatApi` never calls the gateway for a later candidate after an earlier
candidate's call ended in anything but a quota rejection (every call that has
a successor in the call trace was classified as a quota error); an abort
outcome propagates as the aborted error with no ledger record of its own
(the record count stays at the number of earlier quota rejections), and a
non-quota failure propagates as the fatal `requestFailed` error. -/
theorem callChatApi_fail_fast (settings : Settings)
    (dailyUsage : String → String → Nat) (model : String) (gw : Nat → Outcome) :
    (∀ j, j + 1 < (callChatApi settings dailyUsage model gw).2.1.length →
      isQuotaOutcome (gw j) = true) ∧
    (∀ j, j < (callChatApi settings dailyUsage model gw).2.1.length →
      gw j = Outcome.abort →
      (callChatApi settings dailyUsage model gw).1 = Except.error ChatError.aborted ∧
        (callChatApi settings dailyUsage model gw).2.2.length = j) ∧
    (∀ j status message, j < (callChatApi settings dailyUsage model gw).2.1.length →
      gw j = Outcome.err status message → isQuotaError status message = false →
      (callChatApi settings dailyUsage model gw).1 =
        Except.error (ChatError.requestFailed status message)) := by
  by_cases hsel : selectUsableKeys settings dailyUsage model = []
  · refine ⟨?_, ?_, ?_⟩
    · intro j hj
      simp [callChatApi, hsel] at hj
    · intro j hj _
      simp [callChatApi, hsel] at hj
    · intro j status message hj _ _
      simp [callChatApi, hsel] at hj
  · simp only [callChatApi, if_neg hsel]
    refine ⟨?_, ?_, ?_⟩
    · intro j hj
      have := chatLoop_quota_before_later gw model
        (selectUsableKeys settings dailyUsage model) 0 j hj
      rwa [Nat.zero_add] at this
    · intro j hj hab
      exact chatLoop_abort_fail_fast gw model
        (selectUsableKeys settings dailyUsage model) 0 j hj
        (by rwa [Nat.zero_add])
    · intro j status message hj herr hnq
      exact chatLoop_fatal_fail_fast gw model
        (selectUsableKeys settings dailyUsage model) 0 j status message hj
        (by rwa [Nat.zero_add]) hnq

theorem callChatApi_fail_fast_witness :
    (callChatApi settingsOne zeroUsage "gemini-pro" gwAbort).1 =
      Except.error ChatError.aborted ∧
    (callChatApi settingsOne zeroUsage "gemini-pro" gwAbort).2.2.length = 0 :=
  (callChatApi_fail_fast settingsOne zeroUsage "gemini-pro" gwAbort).2.1 0
    (by decide) rfl

/-- C3: the credential selector returns exactly the configured credentials
(primary, then fallbacks) that are non-empty and whose recorded usage for
the model is strictly below the model's limit — all non-empty credentials
when the limit is `0` (which is also the value of an absent limit) — and the
result preserves the primary-then-fallback input ordering (it is a sublist
of the configured list). -/
theorem selectUsableKeys_spec (settings : Settings)
    (dailyUsage : String → String → Nat) (model : String) :
    List.Sublist (selectUsableKeys settings dailyUsage model)
      (settings.apiKey :: settings.fallbackApiKeys) ∧
    (∀ key, key ∈ selectUsableKeys settings dailyUsage model ↔
      (key ∈ settings.apiKey :: settings.fallbackApiKeys ∧ key ≠ "" ∧
        (modelLimitFor settings model = 0 ∨
          dailyUsage (getApiKeyIdentifier key) model < modelLimitFor settings model))) ∧
    (modelLimitFor settings model = 0 →
      selectUsableKeys settings dailyUsage model = allConfiguredKeys settings) := by
  refine ⟨?_, ?_, ?_⟩
  · exact (List.filter_sublist _).trans (List.filter_sublist _)
  · intro key
    simp only [selectUsableKeys, allConfiguredKeys, List.mem_filter, and_assoc]
    constructor
    · rintro ⟨hmem, hne, husable⟩
      refine ⟨hmem, by simpa [bne_iff_ne] using hne, ?_⟩
      rw [keyUsable] at husable
      by_cases h0 : modelLimitFor settings model = 0
      · exact Or.inl h0
      · rw [if_neg h0] at husable
        exact Or.inr (by simpa using husable)
    · rintro ⟨hmem, hne, hlim⟩
      refine ⟨hmem, by simpa [bne_iff_ne] using hne, ?_⟩
      rw [keyUsable]
      by_cases h0 : modelLimitFor settings model = 0
      · rw [if_pos h0]
      · rw [if_neg h0]
        rcases hlim with h0' | hlt
        · exact absurd h0' h0
        · simpa using hlt
  · intro h0
    rw [selectUsableKeys]
    apply List.filter_eq_self.mpr
    intro a _
    rw [keyUsable, if_pos h0]

theorem selectUsableKeys_spec_witness :
    "bbbb2222" ∈ selectUsableKeys settingsSel usageSel "M" ∧
    selectUsableKeys settingsSel usageSel "other" = allConfiguredKeys settingsSel :=
  ⟨((selectUsableKeys_spec settingsSel usageSel "M").2.1 "bbbb2222").mpr
      ⟨by decide, by decide, Or.inr (by decide)⟩,
    (selectUsableKeys_spec settingsSel usageSel "other").2.2 (by decide)⟩

/-- C4: whenever the computed candidate list is empty, `callChatApi` fails
immediately with the `AllCredentialsExhausted` error for the model — whose
message names the model — with an empty gateway-call trace and no ledger
record. -/
theorem callChatApi_exhausted (settings : Settings)
    (dailyUsage : String → String → Nat) (model : String) (gw : Nat → Outcome)
    (h : selectUsableKeys settings dailyUsage model = []) :
    callChatApi settings dailyUsage model gw =
      (Except.error (ChatError.exhausted model), [], []) ∧
    (∃ pre post, errMessage (ChatError.exhausted model) = pre ++ model ++ post) := by
  refine ⟨?_, "일일 호출 제한에 도달했습니다. 이 모델(",
    ")은 오늘 더 이상 사용할 수 없습니다.", rfl⟩
  simp [callChatApi, h]

theorem callChatApi_exhausted_witness :
    callChatApi settingsEmpty zeroUsage "gemini-pro" gwAbort =
      (Except.error (ChatError.exhausted "gemini-pro"), [], []) :=
  (callChatApi_exhausted settingsEmpty zeroUsage "gemini-pro" gwAbort (by decide)).1

/-- C7: for every lifecycle run on an existing conversation whose
orchestrator call fails, the run appends exactly one system-role message to
the history — with the cancelled wording when the failure is an abort,
and `"오류: "` followed by the error text otherwise — and clears the
thinking status; and for every run whatsoever, the cancellation handle is
released (the controller is cleared) when the run completes. -/
theorem runChatLifecycle_failure (st : AppState) (gw : Nat → Outcome)
    (e : ChatError) (hsess : st.sessionExists = true)
    (hfail : (callChatApi st.settings st.dailyUsage st.model gw).1 =
      Except.error e) :
    ((runChatLifecycle st gw).history = st.history ++
        [⟨st.nextId, Role.system,
          [Part.text (if errIsAbort e then cancelledText
            else "오류: " ++ errMessage e)]⟩] ∧
      (runChatLifecycle st gw).loading = false) ∧
    (∀ st2 gw2, (runChatLifecycle st2 gw2).hasController = false) := by
  have hctrl : ∀ (st2 : AppState) (gw2 : Nat → Outcome),
      (runChatLifecycle st2 gw2).hasController = false := by
    intro st2 gw2
    rfl
  refine ⟨?_, hctrl⟩
  rcases hres : callChatApi st.settings st.dailyUsage st.model gw with ⟨res, rest⟩
  rw [hres] at hfail
  simp only at hfail
  rcases rest with ⟨calls, recs⟩
  subst hfail
  constructor
  · simp only [runChatLifecycle, executeChat, hsess, Bool.not_true,
      Bool.false_eq_true, if_false, hres, addMessage]
  · simp only [runChatLifecycle, executeChat, hsess, Bool.not_true,
      Bool.false_eq_true, if_false, hres, addMessage]

theorem runChatLifecycle_failure_witness :
    (runChatLifecycle stIdle gwAbort).history = stIdle.history ++
      [⟨stIdle.nextId, Role.system,
        [Part.text (if errIsAbort (ChatError.exhausted "gemini-pro") then cancelledText
          else "오류: " ++ errMessage (ChatError.exhausted "gemini-pro"))]⟩] ∧
    (runChatLifecycle stIdle gwAbort).loading = false :=
  (runChatLifecycle_failure stIdle gwAbort (ChatError.exhausted "gemini-pro") rfl
    rfl).1

/-- C8: for every conversation state currently in thinking status, each of
`sendMessage`, `regenerate` and `resubmit` is a no-op: the state — history,
ledger records, loading flag, controller, and the count of lifecycle runs
started — is returned unchanged. -/
theorem thinking_guard (st : AppState) (messageId : Nat) (gw : Nat → Outcome)
    (h : st.loading = true) :
    sendMessage st gw = st ∧ regenerate st messageId gw = st ∧
      resubmit st gw = st := by
  refine ⟨?_, ?_, ?_⟩
  · cases hs : st.sessionExists with
    | false => simp [sendMessage, hs]
    | true => simp [sendMessage, hs, h]
  · cases hs : st.sessionExists with
    | false => simp [regenerate, hs]
    | true => simp [regenerate, hs, h]
  · simp [resubmit, h]

theorem thinking_guard_witness :
    sendMessage stThinking gwQuota = stThinking ∧
    regenerate stThinking 1 gwQuota = stThinking ∧
    resubmit stThinking gwQuota = stThinking :=
  thinking_guard stThinking 1 gwQuota rfl

/-- C10: the ledger identifies a non-empty credential by `"key_"` followed
by its last four code units, so two distinct non-empty credentials sharing
their last four code units get the same identifier, and therefore the same
quota-rejection record, the same usability check against the per-model
limit, and the same usage-count lookup — one shared ledger record serves
both credentials. -/
theorem getApiKeyIdentifier_collision (k1 k2 : String)
    (hne : k1 ≠ k2) (h1 : k1 ≠ "") (h2 : k2 ≠ "")
    (hlast : sliceLastFour k1 = sliceLastFour k2) :
    getApiKeyIdentifier k1 = getApiKeyIdentifier k2 ∧
    (∀ model, quotaRejectionEntry k1 model = quotaRejectionEntry k2 model) ∧
    (∀ settings dailyUsage model,
      keyUsable settings dailyUsage model k1 = keyUsable settings dailyUsage model k2) ∧
    (∀ (dailyUsage : String → String → Nat) model,
      dailyUsage (getApiKeyIdentifier k1) model =
        dailyUsage (getApiKeyIdentifier k2) model) := by
  have hid : getApiKeyIdentifier k1 = getApiKeyIdentifier k2 := by
    rw [getApiKeyIdentifier, getApiKeyIdentifier,
      if_neg (by simpa [beq_iff_eq] using h1),
      if_neg (by simpa [beq_iff_eq] using h2), hlast]
  refine ⟨hid, ?_, ?_, ?_⟩
  · intro model
    rw [quotaRejectionEntry, quotaRejectionEntry, hid]
  · intro settings dailyUsage model
    rw [keyUsable, keyUsable, hid]
  · intro dailyUsage model
    rw [hid]

theorem getApiKeyIdentifier_collision_witness :
    getApiKeyIdentifier "xxxx1111" = getApiKeyIdentifier "yyyy1111" ∧
    quotaRejectionEntry "xxxx1111" "gemini-pro" =
      quotaRejectionEntry "yyyy1111" "gemini-pro" :=
  have h := getApiKeyIdentifier_collision "xxxx1111" "yyyy1111" (by decide)
    (by decide) (by decide) (by decide)
  ⟨h.1, h.2.1 "gemini-pro"⟩

end Chat
